import Mathlib

/-
  Verification of the orchestration core of `iggtools build_marker_genes`
  (src/iggtools/subcommands/build_marker_genes.py).

  Strings are modelled as lists of characters (`Str`), which matches the
  Lean 4.14 `String` representation while keeping list lemmas available.
  Python exceptions are modelled with `Except`, where the error value is the
  token reported by the code's error message.  Remote/local side effects are
  modelled as explicit effect traces.
-/

namespace Iggtools

abbrev Str := List Char

/-! ## Python string primitives used by the source -/

/-- Model of Python `s.split(sep)` for a single-character separator:
splits at every occurrence of `sep`, keeping empty fields, so the result
has one more element than the number of separator occurrences. -/
def splitChar (sep : Char) : Str → List Str
  | [] => [[]]
  | c :: cs =>
    match splitChar sep cs with
    | [] => [[]]
    | t :: ts => if c = sep then [] :: t :: ts else (c :: t) :: ts

/-- Decimal value of a digit-character list, most significant first,
as computed by Python `int` on a validated digit string. -/
def digitsToNat (ds : Str) : Nat :=
  ds.foldl (fun a c => 10 * a + (c.toNat - 48)) 0

/-- Digit-run check and value used by `pyInt`. -/
def pyIntCore (sign : Int) (ds : Str) : Option Int :=
  if ds ≠ [] ∧ ds.all (fun c => c.isDigit) = true then
    some (sign * (digitsToNat ds : Int))
  else none

/-- Model of Python `int(s)`: an optional sign followed by a nonempty
run of decimal digits parses to an integer; anything else raises
`ValueError`, modelled as `none`. -/
def pyInt (s : Str) : Option Int :=
  if s.head? = some '-' then pyIntCore (-1) s.tail
  else if s.head? = some '+' then pyIntCore 1 s.tail
  else pyIntCore 1 s

/-- Fuel-indexed left-to-right deletion of every non-overlapping
occurrence of `pat`; the fuel is the length of the scanned string,
which bounds the number of scanning steps. -/
def delSub (pat : Str) : Nat → Str → Str
  | _, [] => []
  | 0, s => s
  | fuel + 1, c :: cs =>
    if pat ≠ [] ∧ pat.isPrefixOf (c :: cs) then
      delSub pat fuel ((c :: cs).drop pat.length)
    else c :: delSub pat fuel cs

/-- Model of Python `s.replace(pat, "")` for nonempty `pat`. -/
def pyDeleteAll (pat s : Str) : Str := delSub pat s.length s

/-- Lexicographic comparison of character lists by code point,
as Python `sorted` compares strings. -/
def strLe : Str → Str → Bool
  | [], _ => true
  | _ :: _, [] => false
  | a :: as, b :: bs => if a = b then strLe as bs else decide (a < b)

/-- Insertion into a list sorted by `strLe`. -/
def insSorted (x : Str) : List Str → List Str
  | [] => [x]
  | y :: ys => if strLe x y then x :: y :: ys else y :: insSorted x ys

/-- Model of Python `sorted` on a collection of strings. -/
def sortStr : List Str → List Str
  | [] => []
  | x :: xs => insSorted x (sortStr xs)

/-- Model of Python `set.add`: insert without duplication. -/
def addSel (s : List Str) (g : Str) : List Str :=
  if g ∈ s then s else g :: s

/-- Association-list lookup, modelling Python `dict` access. -/
def lookupA {β : Type} : List (Str × β) → Str → Option β
  | [], _ => none
  | (k, v) :: t, x => if k = x then some v else lookupA t x

/-- In-place value update for an existing key, modelling Python
`dict` assignment to a present key (insertion order is kept). -/
def updateA {β : Type} : List (Str × β) → Str → β → List (Str × β)
  | [], k, v => [(k, v)]
  | (k', v') :: t, k, v =>
    if k' = k then (k, v) :: t else (k', v') :: updateA t k v

/-- Python-style loop over a list that may raise: stops at the first
error, otherwise threads the accumulator. -/
def foldE {α β ε : Type} (f : β → α → Except ε β) : β → List α → Except ε β
  | b, [] => Except.ok b
  | b, x :: xs =>
    match f b x with
    | Except.error e => Except.error e
    | Except.ok b' => foldE f b' xs

/-! ## Remote path scheme (build_marker_genes.py, lines 13-28) -/

/-- Modelled from the spec: the gene-annotations location prefix comes from
`iggtools.params.outputs`, a module not under src/; its value is taken from
the path comment in the source and is never inspected by any claim. -/
def outputs_annotations : Str := "s3://microbiome-igg/2.0/gene_annotations".toList

/-- Modelled from the spec: the marker-genes location prefix comes from
`iggtools.params.outputs`, a module not under src/; its value is taken from
the path comment in the source and is never inspected by any claim. -/
def outputs_marker_genes : Str := "s3://microbiome-igg/2.0/marker_genes/phyeco".toList

/-- Source `input_annotations_file`. -/
def input_annotations_file (genome_id species_id filename : Str) : Str :=
  outputs_annotations ++ ("/".toList) ++ species_id ++ ("/".toList) ++ genome_id
    ++ ("/".toList) ++ filename

/-- Source `output_marker_genes_file`. -/
def output_marker_genes_file (genome_id species_id filename : Str) : Str :=
  outputs_marker_genes ++ ("/temp/".toList) ++ species_id ++ ("/".toList) ++ genome_id
    ++ ("/".toList) ++ filename

/-- Source `lastoutput`. -/
def lastoutput (genome_id : Str) : Str := genome_id ++ (".markers.map".toList)

/-- Source `destpath`. -/
def destpath (genome_id species_id src : Str) : Str :=
  output_marker_genes_file genome_id species_id (src ++ (".lz4".toList))

/-! ## hmmsearch (build_marker_genes.py, lines 31-51)

The local filesystem and the subprocess are collaborators; the function's
control flow is modelled as an effect trace plus an `Except` result.  The
two Boolean arguments stand for the two environment conditions the code
branches on: whether `find_files` sees a pre-existing report, and whether
the external `hmmsearch` invocation exits successfully. -/

inductive FsEffect where
  | download (path : Str)
  | note (msg : Str)
  | runTool (outFile : Str)
  | rename (src dst : Str)
deriving DecidableEq

def isRunTool : FsEffect → Bool
  | FsEffect.runTool _ => true
  | _ => false

/-- One filesystem step: a (failed or successful) tool run leaves its
(partial) output file behind; `mv src dst` removes `src` and creates
`dst`; the other effects do not touch local files. -/
def applyFs (s : Str → Bool) : FsEffect → (Str → Bool)
  | FsEffect.runTool f => fun p => if p = f then true else s p
  | FsEffect.rename a b => fun p => if p = b then true else if p = a then false else s p
  | _ => s

def applyFsList (s : Str → Bool) (l : List FsEffect) : Str → Bool :=
  l.foldl applyFs s

/-- Source `hmmsearch`: download the protein annotations, reuse a
pre-existing report if one is found, otherwise run the external tool; on
tool failure rename the partial report to `<report>.bogus` and re-raise. -/
def hmmsearch (genome_id species_id : Str) (reportExists toolSucceeds : Bool) :
    List FsEffect × Except Unit Str :=
  let hmmsearch_file := genome_id ++ (".hmmsearch".toList)
  let dl := FsEffect.download
    (input_annotations_file genome_id species_id (genome_id ++ (".faa.lz4".toList)))
  if reportExists then
    ([dl, FsEffect.note ("Found hmmsearch results from prior run.".toList)],
     Except.ok hmmsearch_file)
  else if toolSucceeds then
    ([dl, FsEffect.runTool hmmsearch_file], Except.ok hmmsearch_file)
  else
    ([dl, FsEffect.runTool hmmsearch_file,
      FsEffect.rename hmmsearch_file (hmmsearch_file ++ (".bogus".toList))],
     Except.error ())

/-! ## find_hits (build_marker_genes.py, lines 79-94)

`parse_hmmsearch` yields records; `find_hits` filters them by the two
thresholds (module constants `inputs.hmmsearch_max_evalue` and
`inputs.hmmsearch_min_cov`, passed here as arguments) and keeps at most one
hit per target in a dict, which is modelled as an insertion-ordered
association list.  Float comparisons are modelled over `Rat`. -/

structure Hmmhit where
  query : Str
  target : Str
  evalue : Rat
  qcov : Rat
  tcov : Rat
deriving DecidableEq

/-- One iteration of the `find_hits` loop body. -/
def hitStep (max_evalue min_cov : Rat) (hits : List (Str × Hmmhit)) (r : Hmmhit) :
    List (Str × Hmmhit) :=
  if max_evalue < r.evalue then hits
  else if min r.qcov r.tcov < min_cov then hits
  else
    match lookupA hits r.target with
    | none => hits ++ [(r.target, r)]
    | some prev => if r.evalue < prev.evalue then updateA hits r.target r else hits

/-- Source `find_hits` over the already-parsed records. -/
def find_hits (max_evalue min_cov : Rat) (records : List Hmmhit) : List Hmmhit :=
  (records.foldl (hitStep max_evalue min_cov) []).map Prod.snd

/-! ## identify_marker_genes output list (build_marker_genes.py, lines 97-121) -/

/-- The `output_files` list built by `identify_marker_genes`:
`[hmmsearch_file, hmmsearch_seq, hmmsearch_map]`. -/
def identify_output_files (genome_id : Str) : List Str :=
  [genome_id ++ (".hmmsearch".toList),
   genome_id ++ (".markers.fa".toList),
   genome_id ++ (".markers.map".toList)]

/-! ## decode_genomes_arg (build_marker_genes.py, lines 135-156) -/

def gutPat : Str := "GUT_GENOME".toList

/-- The integer Python derives from a genome id for slice membership:
`int(gid.replace("GUT_GENOME", ""))`; `none` models `ValueError`. -/
def keyOf (gid : Str) : Option Int := pyInt (pyDeleteAll gutPat gid)

/-- One iteration of the inner `for gid in genomes` loop of a slice token
`tok = i:n`; a `ValueError` on the id is reported against `tok`. -/
def sliceStep (tok : Str) (i n : Int) (acc : List Str) (gid : Str) :
    Except Str (List Str) :=
  match keyOf gid with
  | none => Except.error tok
  | some k => Except.ok (if k % n = i then addSel acc gid else acc)

/-- Processing of one comma-separated token: a token without `:` is added
to the selection verbatim (no catalog check); a token with `:` must split
into exactly two integer parts `i:n` with `0 ≤ i < n` and then selects
every catalog id whose key is congruent to `i` mod `n`. -/
def procToken (genomes : List Str) (acc : List Str) (tok : Str) :
    Except Str (List Str) :=
  if (':' : Char) ∉ tok then Except.ok (addSel acc tok)
  else
    match splitChar ':' tok with
    | [si, sn] =>
      match pyInt si, pyInt sn with
      | some i, some n =>
        if 0 ≤ i ∧ i < n then foldE (sliceStep tok i n) acc genomes
        else Except.error tok
      | _, _ => Except.error tok
    | _ => Except.error tok

/-- Source `decode_genomes_arg`: `"all"` (case-insensitive) selects the
whole catalog; otherwise the comma-separated tokens are processed in order
into one selection set, which is returned sorted. -/
def decode_genomes_arg (expr : Str) (genomes : List Str) : Except Str (List Str) :=
  if expr.map Char.toUpper = ("ALL".toList) then
    Except.ok (sortStr (genomes.foldl addSel []))
  else
    match foldE (procToken genomes) [] (splitChar ',' expr) with
    | Except.error e => Except.error e
    | Except.ok sel => Except.ok (sortStr sel)

/-! ## genome_work (build_marker_genes.py, lines 168-200)

The master's per-item closure.  Remote existence checks and the slave
launch are collaborators; we record the effects the closure performs.
`remoteExists` models `find_files_with_retry` on the remote destination
(retrying a deterministic check is the check itself). -/

inductive Effect where
  | note (msg : Str)
  | removeDir (d : Str)
  | makeDir (d : Str)
  | writeFile (p : Str)
  | runSlave (gid : Str)
  | upload (src dst : Str)
deriving DecidableEq

def isUpload : Effect → Bool
  | Effect.upload _ _ => true
  | _ => false

def isRunSlave : Effect → Bool
  | Effect.runSlave _ => true
  | _ => false

/-- Remote-store transition: only uploads change which destinations exist. -/
def applyEffect (s : Str → Bool) : Effect → (Str → Bool)
  | Effect.upload _ dst => fun p => if p = dst then true else s p
  | _ => s

def applyEffects (s : Str → Bool) (l : List Effect) : Str → Bool :=
  l.foldl applyEffect s

/-- Source `genome_work`: assert catalog membership, consult the remote
completion marker, skip (with a note only) when it exists and `force` is
unset, otherwise run the slave in a fresh subdirectory and upload its log. -/
def genome_work (catalog : List (Str × Str)) (force debug : Bool)
    (remoteExists : Str → Bool) (genome_id : Str) : Except Str (List Effect) :=
  match lookupA catalog genome_id with
  | none =>
    Except.error (("Genome ".toList) ++ genome_id ++ (" is not in the database.".toList))
  | some species_id =>
    let dest_file := destpath genome_id species_id (lastoutput genome_id)
    if remoteExists dest_file = true ∧ force = false then
      Except.ok [Effect.note (("Destination ".toList) ++ dest_file
        ++ (" already exists.  Specify --force to overwrite.".toList))]
    else
      let slave_subdir := species_id ++ ("__".toList) ++ genome_id
      let slave_log := slave_subdir ++ ("/build_marker_genes.log".toList)
      Except.ok
        ([Effect.note (("Running HMMsearch for genome ".toList) ++ genome_id)]
         ++ (if debug then [] else [Effect.removeDir slave_subdir])
         ++ [Effect.makeDir slave_subdir,
             Effect.writeFile slave_log,
             Effect.runSlave genome_id,
             Effect.upload slave_log
               (destpath genome_id species_id ("build_marker_genes.log".toList))]
         ++ (if debug then [] else [Effect.removeDir slave_subdir]))

/-! ## build_marker_genes_slave upload phase (build_marker_genes.py, lines 223-232)

`multithreading_map(upload_star, ...)` uploads `output_files[:-1]`
concurrently and returns only when all have completed; the completion
order of those uploads is an arbitrary permutation `order` of
`output_files[:-1]`.  The final `upload` of `output_files[-1]` runs
strictly afterwards. -/

def build_marker_genes_slave_uploads (genome_id species_id : Str)
    (order : List Str) : List (Str × Str) :=
  let output_files := identify_output_files genome_id
  (order.map fun o => (o, destpath genome_id species_id o))
    ++ [(output_files.getLastD [],
         destpath genome_id species_id (output_files.getLastD []))]

/-! ## Decimal rendering of slice indices

Helper for stating claims about slice tokens `i:n`: a canonical decimal
rendering of a natural number, with the characters the parser accepts. -/

def digitChar10 (d : Nat) : Char := Char.ofNat (48 + d)

def natToDecimal (m : Nat) : Str :=
  if m = 0 then ['0'] else (Nat.digits 10 m).reverse.map digitChar10

/-- The selection-expression token `i:n`. -/
def mkSliceToken (i n : Nat) : Str := natToDecimal i ++ [':'] ++ natToDecimal n

/-- The pure value computed by the inner genome loop of a slice token when
every catalog id parses: genomes whose key is `i` mod `n` are added to the
running selection. -/
def sliceSel (key : Str → Int) (i n : Int) (acc : List Str) (genomes : List Str) :
    List Str :=
  genomes.foldl (fun a gid => if key gid % n = i then addSel a gid else a) acc

/-! ## Basic lemmas about the string primitives -/

theorem mem_addSel {s : List Str} {g x : Str} :
    x ∈ addSel s g ↔ x = g ∨ x ∈ s := by
  unfold addSel
  by_cases h : g ∈ s
  · simp only [if_pos h]
    constructor
    · exact fun hx => Or.inr hx
    · rintro (rfl | hx)
      · exact h
      · exact hx
  · simp [if_neg h]

theorem mem_insSorted {x y : Str} {l : List Str} :
    x ∈ insSorted y l ↔ x = y ∨ x ∈ l := by
  induction l with
  | nil => simp [insSorted]
  | cons a t ih =>
    unfold insSorted
    by_cases h : strLe y a
    · simp [h]
    · simp only [if_neg h, List.mem_cons, ih]
      tauto

theorem mem_sortStr {x : Str} {l : List Str} :
    x ∈ sortStr l ↔ x ∈ l := by
  induction l with
  | nil => simp [sortStr]
  | cons a t ih => simp [sortStr, mem_insSorted, ih]

theorem splitChar_cons (sep c : Char) (cs : Str) :
    splitChar sep (c :: cs) =
      match splitChar sep cs with
      | [] => [[]]
      | t :: ts => if c = sep then [] :: t :: ts else (c :: t) :: ts := rfl

theorem splitChar_ne_nil (sep : Char) (s : Str) : splitChar sep s ≠ [] := by
  cases s with
  | nil => simp [splitChar]
  | cons c cs =>
    rw [splitChar_cons]
    cases h : splitChar sep cs with
    | nil => simp
    | cons t ts => by_cases hc : c = sep <;> simp [hc]

theorem splitChar_of_not_mem {sep : Char} {s : Str} (h : sep ∉ s) :
    splitChar sep s = [s] := by
  induction s with
  | nil => rfl
  | cons c cs ih =>
    have hc : c ≠ sep := fun hcs => h (hcs ▸ List.mem_cons_self c cs)
    have hcs : sep ∉ cs := fun hx => h (List.mem_cons_of_mem c hx)
    rw [splitChar_cons, ih hcs]
    simp [hc]

theorem splitChar_append {sep : Char} {a b : Str} (h : sep ∉ a) :
    splitChar sep (a ++ sep :: b) = a :: splitChar sep b := by
  induction a with
  | nil =>
    rw [List.nil_append, splitChar_cons]
    cases hb : splitChar sep b with
    | nil => exact absurd hb (splitChar_ne_nil sep b)
    | cons t ts => simp
  | cons c cs ih =>
    have hc : c ≠ sep := fun hcs => h (hcs ▸ List.mem_cons_self c cs)
    have hcs : sep ∉ cs := fun hx => h (List.mem_cons_of_mem c hx)
    rw [List.cons_append, splitChar_cons, ih hcs]
    simp [hc]

theorem foldE_nil {α β ε : Type} (f : β → α → Except ε β) (b : β) :
    foldE f b ([] : List α) = Except.ok b := rfl

theorem foldE_cons {α β ε : Type} (f : β → α → Except ε β) (b : β) (x : α)
    (xs : List α) :
    foldE f b (x :: xs) =
      match f b x with
      | Except.error e => Except.error e
      | Except.ok b' => foldE f b' xs := rfl

theorem foldE_error_of_mem {α β ε : Type} (f : β → α → Except ε β) (l : List α)
    (x : α) (hx : x ∈ l) (hf : ∀ b, ∃ e, f b x = Except.error e) :
    ∀ b, ∃ e, foldE f b l = Except.error e := by
  induction l with
  | nil => cases hx
  | cons c t ih =>
    intro b
    rcases List.mem_cons.mp hx with rfl | hxt
    · obtain ⟨e, he⟩ := hf b
      exact ⟨e, by simp [foldE, he]⟩
    · cases hfc : f b c with
      | error e => exact ⟨e, by simp [foldE, hfc]⟩
      | ok b' =>
        obtain ⟨e, he⟩ := ih hxt b'
        exact ⟨e, by simp [foldE, hfc, he]⟩

/-! ## Lemmas about the decimal rendering -/

theorem digitChar10_facts {d : Nat} (h : d < 10) :
    (digitChar10 d).isDigit = true ∧ digitChar10 d ≠ ':' ∧ digitChar10 d ≠ ','
      ∧ digitChar10 d ≠ '-' ∧ digitChar10 d ≠ '+' ∧ (digitChar10 d).toNat = 48 + d := by
  interval_cases d <;> decide

theorem natToDecimal_chars {m : Nat} {c : Char} (hc : c ∈ natToDecimal m) :
    ∃ d, d < 10 ∧ c = digitChar10 d := by
  unfold natToDecimal at hc
  by_cases hm : m = 0
  · subst hm
    rw [show (if (0 : Nat) = 0 then (['0'] : Str)
          else (Nat.digits 10 0).reverse.map digitChar10) = ['0'] from rfl] at hc
    rw [List.mem_singleton.mp hc]
    exact ⟨0, by norm_num, by decide⟩
  · rw [if_neg hm] at hc
    obtain ⟨d, hd, rfl⟩ := List.mem_map.mp hc
    exact ⟨d, Nat.digits_lt_base (by norm_num) (List.mem_reverse.mp hd), rfl⟩

theorem natToDecimal_ne_nil (m : Nat) : natToDecimal m ≠ [] := by
  unfold natToDecimal
  by_cases hm : m = 0
  · simp [hm]
  · rw [if_neg hm]
    simp [Nat.digits_ne_nil_iff_ne_zero.mpr hm]

theorem colon_not_mem_natToDecimal (m : Nat) : (':' : Char) ∉ natToDecimal m := by
  intro h
  obtain ⟨d, hd, hc⟩ := natToDecimal_chars h
  exact (digitChar10_facts hd).2.1 hc.symm

theorem comma_not_mem_natToDecimal (m : Nat) : (',' : Char) ∉ natToDecimal m := by
  intro h
  obtain ⟨d, hd, hc⟩ := natToDecimal_chars h
  exact (digitChar10_facts hd).2.2.1 hc.symm

theorem foldl_digits (L : List Nat) (hL : ∀ d ∈ L, d < 10) : ∀ a : Nat,
    (L.reverse.map digitChar10).foldl (fun x c => 10 * x + (c.toNat - 48)) a
      = a * 10 ^ L.length + Nat.ofDigits 10 L := by
  induction L with
  | nil => simp [Nat.ofDigits]
  | cons d t ih =>
    intro a
    have hd : d < 10 := hL d (List.mem_cons_self d t)
    have ht : ∀ x ∈ t, x < 10 := fun x hx => hL x (List.mem_cons_of_mem d hx)
    rw [List.reverse_cons, List.map_append, List.foldl_append, ih ht a]
    simp only [List.map_cons, List.map_nil, List.foldl_cons, List.foldl_nil,
      (digitChar10_facts hd).2.2.2.2.2, Nat.add_sub_cancel_left,
      Nat.ofDigits_cons, List.length_cons]
    ring

theorem digitsToNat_natToDecimal (m : Nat) : digitsToNat (natToDecimal m) = m := by
  unfold digitsToNat natToDecimal
  by_cases hm : m = 0
  · simp [hm]
  · rw [if_neg hm,
      foldl_digits (Nat.digits 10 m) (fun d hd => Nat.digits_lt_base (by norm_num) hd) 0]
    simp [Nat.ofDigits_digits]

theorem pyInt_natToDecimal (m : Nat) : pyInt (natToDecimal m) = some (m : Int) := by
  obtain ⟨c, cs, hs⟩ := List.exists_cons_of_ne_nil (natToDecimal_ne_nil m)
  have hc : c ∈ natToDecimal m := by rw [hs]; exact List.mem_cons_self c cs
  obtain ⟨d, hd, rfl⟩ := natToDecimal_chars hc
  have hdg := digitChar10_facts hd
  unfold pyInt
  rw [hs]
  have h1 : (digitChar10 d :: cs).head? ≠ some '-' := by
    simp only [List.head?_cons, ne_eq, Option.some.injEq]
    exact hdg.2.2.2.1
  have h2 : (digitChar10 d :: cs).head? ≠ some '+' := by
    simp only [List.head?_cons, ne_eq, Option.some.injEq]
    exact hdg.2.2.2.2.1
  rw [if_neg h1, if_neg h2]
  have hall : (digitChar10 d :: cs).all (fun c => c.isDigit) = true := by
    rw [List.all_eq_true]
    intro x hx
    obtain ⟨e, he, rfl⟩ := natToDecimal_chars (hs ▸ hx)
    exact (digitChar10_facts he).1
  unfold pyIntCore
  rw [if_pos ⟨List.cons_ne_nil _ _, hall⟩]
  rw [← hs, digitsToNat_natToDecimal]
  simp

theorem splitChar_mkSliceToken (i n : Nat) :
    splitChar ':' (mkSliceToken i n) = [natToDecimal i, natToDecimal n] := by
  unfold mkSliceToken
  rw [show natToDecimal i ++ [':'] ++ natToDecimal n
        = natToDecimal i ++ (':' :: natToDecimal n) by simp,
    splitChar_append (colon_not_mem_natToDecimal i),
    splitChar_of_not_mem (colon_not_mem_natToDecimal n)]

theorem comma_not_mem_mkSliceToken (i n : Nat) :
    (',' : Char) ∉ mkSliceToken i n := by
  unfold mkSliceToken
  intro h
  rcases List.mem_append.mp h with h1 | h2
  · rcases List.mem_append.mp h1 with h3 | h4
    · exact comma_not_mem_natToDecimal i h3
    · simp at h4
  · exact comma_not_mem_natToDecimal n h2

theorem colon_mem_mkSliceToken (i n : Nat) : (':' : Char) ∈ mkSliceToken i n := by
  unfold mkSliceToken
  simp

theorem mkSliceToken_not_all (i n : Nat) :
    (mkSliceToken i n).map Char.toUpper ≠ ("ALL".toList) := by
  intro h
  have hmem : Char.toUpper ':' ∈ (mkSliceToken i n).map Char.toUpper :=
    List.mem_map_of_mem _ (colon_mem_mkSliceToken i n)
  rw [h] at hmem
  revert hmem
  decide

/-! ## Characterizing slice resolution -/

theorem foldE_sliceStep {genomes : List Str} {key : Str → Int}
    (hkey : ∀ gid ∈ genomes, keyOf gid = some (key gid)) (tok : Str) (i n : Int) :
    ∀ acc, foldE (sliceStep tok i n) acc genomes
      = Except.ok (sliceSel key i n acc genomes) := by
  induction genomes with
  | nil => intro acc; rfl
  | cons g t ih =>
    intro acc
    have hg : keyOf g = some (key g) := hkey g (List.mem_cons_self g t)
    have ht : ∀ gid ∈ t, keyOf gid = some (key gid) :=
      fun gid hgid => hkey gid (List.mem_cons_of_mem g hgid)
    rw [foldE_cons, show sliceStep tok i n acc g
        = Except.ok (if key g % n = i then addSel acc g else acc) by
      unfold sliceStep; rw [hg]]
    exact ih ht (if key g % n = i then addSel acc g else acc)

theorem mem_sliceSel {key : Str → Int} {i n : Int} {x : Str} :
    ∀ {genomes acc : List Str}, x ∈ sliceSel key i n acc genomes
      ↔ x ∈ acc ∨ (x ∈ genomes ∧ key x % n = i) := by
  intro genomes
  induction genomes with
  | nil => intro acc; simp [sliceSel]
  | cons g t ih =>
    intro acc
    show x ∈ sliceSel key i n (if key g % n = i then addSel acc g else acc) t ↔ _
    rw [ih]
    by_cases hg : key g % n = i
    · rw [if_pos hg]
      simp only [mem_addSel, List.mem_cons]
      constructor
      · rintro ((rfl | hacc) | hrest)
        · exact Or.inr ⟨Or.inl rfl, hg⟩
        · exact Or.inl hacc
        · exact Or.inr ⟨Or.inr hrest.1, hrest.2⟩
      · rintro (hacc | ⟨(rfl | ht'), hk⟩)
        · exact Or.inl (Or.inr hacc)
        · exact Or.inl (Or.inl rfl)
        · exact Or.inr ⟨ht', hk⟩
    · rw [if_neg hg]
      simp only [List.mem_cons]
      constructor
      · rintro (hacc | hrest)
        · exact Or.inl hacc
        · exact Or.inr ⟨Or.inr hrest.1, hrest.2⟩
      · rintro (hacc | ⟨(rfl | ht'), hk⟩)
        · exact Or.inl hacc
        · exact absurd hk hg
        · exact Or.inr ⟨ht', hk⟩

theorem procToken_slice_ok {genomes : List Str} {key : Str → Int}
    (hkey : ∀ gid ∈ genomes, keyOf gid = some (key gid)) {i n : Nat} (hin : i < n)
    (acc : List Str) :
    procToken genomes acc (mkSliceToken i n)
      = Except.ok (sliceSel key (i : Int) (n : Int) acc genomes) := by
  have h1 := pyInt_natToDecimal i
  have h2 := pyInt_natToDecimal n
  simp only [procToken, if_neg (not_not_intro (colon_mem_mkSliceToken i n)),
    splitChar_mkSliceToken, h1, h2]
  rw [if_pos ⟨Int.ofNat_nonneg i, by exact_mod_cast hin⟩,
    foldE_sliceStep hkey (mkSliceToken i n) (i : Int) (n : Int) acc]

theorem decode_slice_ok {genomes : List Str} {key : Str → Int}
    (hkey : ∀ gid ∈ genomes, keyOf gid = some (key gid)) {i n : Nat} (hin : i < n) :
    decode_genomes_arg (mkSliceToken i n) genomes
      = Except.ok (sortStr (sliceSel key (i : Int) (n : Int) [] genomes)) := by
  unfold decode_genomes_arg
  rw [if_neg (mkSliceToken_not_all i n),
    splitChar_of_not_mem (comma_not_mem_mkSliceToken i n)]
  rw [show foldE (procToken genomes) [] [mkSliceToken i n]
      = Except.ok (sliceSel key (i : Int) (n : Int) [] genomes) by
    rw [foldE_cons, procToken_slice_ok hkey hin]
    rfl]

/-! ## Association-list lemmas for the hit selector -/

theorem lookupA_none_iff {β : Type} {l : List (Str × β)} {k : Str} :
    lookupA l k = none ↔ k ∉ l.map Prod.fst := by
  induction l with
  | nil => simp [lookupA]
  | cons p t ih =>
    obtain ⟨k', v'⟩ := p
    unfold lookupA
    by_cases h : k' = k
    · subst h
      rw [if_pos rfl]
      constructor
      · intro hc
        exact Option.noConfusion hc
      · intro hc
        rw [List.map_cons] at hc
        exact absurd (List.mem_cons_self _ _) hc
    · simp only [if_neg h, List.map_cons, List.mem_cons, ih]
      constructor
      · intro hk hor
        rcases hor with hk' | hmem
        · exact h hk'.symm
        · exact hk hmem
      · intro hk hmem
        exact hk (Or.inr hmem)

theorem mem_of_lookupA_some {β : Type} {l : List (Str × β)} {k : Str} {v : β}
    (h : lookupA l k = some v) : k ∈ l.map Prod.fst := by
  by_contra hk
  rw [← lookupA_none_iff] at hk
  rw [hk] at h
  cases h

theorem map_fst_updateA {β : Type} {l : List (Str × β)} {k : Str} (v : β)
    (hk : k ∈ l.map Prod.fst) :
    (updateA l k v).map Prod.fst = l.map Prod.fst := by
  induction l with
  | nil => cases hk
  | cons p t ih =>
    obtain ⟨k', v'⟩ := p
    unfold updateA
    by_cases h : k' = k
    · subst h
      simp
    · rw [if_neg h]
      have hk' : k ∈ t.map Prod.fst := by
        rcases List.mem_cons.mp hk with hh | ht
        · exact absurd hh.symm h
        · exact ht
      simp [ih hk']

theorem mem_snd_updateA {β : Type} {l : List (Str × β)} {k : Str} {v x : β}
    (h : x ∈ (updateA l k v).map Prod.snd) :
    x = v ∨ x ∈ l.map Prod.snd := by
  induction l with
  | nil =>
    simp [updateA] at h
    exact Or.inl h
  | cons p t ih =>
    obtain ⟨k', v'⟩ := p
    unfold updateA at h
    by_cases hk : k' = k
    · rw [if_pos hk] at h
      simp only [List.map_cons, List.mem_cons] at h
      rcases h with rfl | h
      · exact Or.inl rfl
      · exact Or.inr (List.mem_cons_of_mem _ h)
    · rw [if_neg hk] at h
      simp only [List.map_cons, List.mem_cons] at h
      rcases h with rfl | h
      · exact Or.inr (List.mem_cons_self _ _)
      · rcases ih h with h1 | h2
        · exact Or.inl h1
        · exact Or.inr (List.mem_cons_of_mem _ h2)

/-- One `find_hits` loop step preserves distinctness of the targets. -/
theorem hitStep_nodup {max_evalue min_cov : Rat} {hits : List (Str × Hmmhit)}
    (hn : (hits.map Prod.fst).Nodup) (r : Hmmhit) :
    ((hitStep max_evalue min_cov hits r).map Prod.fst).Nodup := by
  unfold hitStep
  by_cases h1 : max_evalue < r.evalue
  · rwa [if_pos h1]
  · rw [if_neg h1]
    by_cases h2 : min r.qcov r.tcov < min_cov
    · rwa [if_pos h2]
    · rw [if_neg h2]
      cases hl : lookupA hits r.target with
      | none =>
        have hnotin : r.target ∉ hits.map Prod.fst := lookupA_none_iff.mp hl
        simp [List.nodup_append, hn, hnotin]
      | some prev =>
        dsimp only
        by_cases he : r.evalue < prev.evalue
        · rw [if_pos he, map_fst_updateA r (mem_of_lookupA_some hl)]
          exact hn
        · rwa [if_neg he]

/-- One `find_hits` loop step only keeps hits that pass both thresholds. -/
theorem hitStep_pass {max_evalue min_cov : Rat} {hits : List (Str × Hmmhit)}
    (hp : ∀ x ∈ hits.map Prod.snd, x.evalue ≤ max_evalue ∧ min_cov ≤ min x.qcov x.tcov)
    (r : Hmmhit) :
    ∀ x ∈ (hitStep max_evalue min_cov hits r).map Prod.snd,
      x.evalue ≤ max_evalue ∧ min_cov ≤ min x.qcov x.tcov := by
  unfold hitStep
  by_cases h1 : max_evalue < r.evalue
  · rwa [if_pos h1]
  · rw [if_neg h1]
    by_cases h2 : min r.qcov r.tcov < min_cov
    · rwa [if_pos h2]
    · rw [if_neg h2]
      have hr : r.evalue ≤ max_evalue ∧ min_cov ≤ min r.qcov r.tcov :=
        ⟨not_lt.mp h1, not_lt.mp h2⟩
      cases hl : lookupA hits r.target with
      | none =>
        dsimp only
        intro x hx
        rw [List.map_append] at hx
        rcases List.mem_append.mp hx with hx1 | hx2
        · exact hp x hx1
        · have hxr : x = r := by simpa using hx2
          rw [hxr]
          exact hr
      | some prev =>
        dsimp only
        by_cases he : r.evalue < prev.evalue
        · rw [if_pos he]
          intro x hx
          rcases mem_snd_updateA hx with rfl | hx'
          · exact hr
          · exact hp x hx'
        · rwa [if_neg he]

theorem foldl_hitStep_pass (max_evalue min_cov : Rat) (records : List Hmmhit) :
    ∀ acc, (∀ x ∈ acc.map Prod.snd, x.evalue ≤ max_evalue ∧ min_cov ≤ min x.qcov x.tcov) →
      ∀ x ∈ ((records.foldl (hitStep max_evalue min_cov) acc).map Prod.snd),
        x.evalue ≤ max_evalue ∧ min_cov ≤ min x.qcov x.tcov := by
  induction records with
  | nil =>
    intro acc hacc
    rw [List.foldl_nil]
    exact hacc
  | cons r t ih =>
    intro acc hacc
    rw [List.foldl_cons]
    exact ih _ (hitStep_pass hacc r)

theorem foldl_hitStep_nodup (max_evalue min_cov : Rat) (records : List Hmmhit) :
    ∀ acc, (acc.map Prod.fst).Nodup →
      ((records.foldl (hitStep max_evalue min_cov) acc).map Prod.fst).Nodup := by
  induction records with
  | nil =>
    intro acc hacc
    rw [List.foldl_nil]
    exact hacc
  | cons r t ih =>
    intro acc hacc
    rw [List.foldl_cons]
    exact ih _ (hitStep_nodup hacc r)

/-! ## Claim theorems -/

/-- C9: for every (genomeId, speciesId), the remote path the master consults to
decide prior completion (`destpath` of `lastoutput`) is exactly the path the
worker's final map-file upload targets (`destpath` of `output_files[-1]`), and
both equal the marker-genes output location for that species and genome joined
with genomeId + ".markers.map" + ".lz4". -/
theorem completion_check_matches_final_upload (genome_id species_id : Str) :
    destpath genome_id species_id (lastoutput genome_id)
        = destpath genome_id species_id ((identify_output_files genome_id).getLastD [])
      ∧ destpath genome_id species_id (lastoutput genome_id)
        = output_marker_genes_file genome_id species_id
            (genome_id ++ (".markers.map".toList) ++ (".lz4".toList)) :=
  ⟨rfl, rfl⟩

/-- C8: when the external search tool fails (and no report pre-existed), the
invocation is not retried — the tool runs exactly once — the partial report is
renamed to the quarantined `.bogus` name, the failure propagates to the caller,
and afterwards no file exists under the report's completed name (while the
quarantined name does exist). -/
theorem hmmsearch_failure_quarantined (genome_id species_id : Str) (s : Str → Bool) :
    (hmmsearch genome_id species_id false false).2 = Except.error ()
    ∧ ((hmmsearch genome_id species_id false false).1.countP isRunTool) = 1
    ∧ (hmmsearch genome_id species_id false false).1.getLast?
        = some (FsEffect.rename (genome_id ++ (".hmmsearch".toList))
            (genome_id ++ (".hmmsearch".toList) ++ (".bogus".toList)))
    ∧ applyFsList s (hmmsearch genome_id species_id false false).1
        (genome_id ++ (".hmmsearch".toList)) = false
    ∧ applyFsList s (hmmsearch genome_id species_id false false).1
        (genome_id ++ (".hmmsearch".toList) ++ (".bogus".toList)) = true := by
  have hne : (genome_id ++ (".hmmsearch".toList))
      ≠ genome_id ++ (".hmmsearch".toList) ++ (".bogus".toList) := by
    intro h
    have hlen := congrArg List.length h
    simp at hlen
  have heff : (hmmsearch genome_id species_id false false).1
      = [FsEffect.download (input_annotations_file genome_id species_id
            (genome_id ++ (".faa.lz4".toList))),
         FsEffect.runTool (genome_id ++ (".hmmsearch".toList)),
         FsEffect.rename (genome_id ++ (".hmmsearch".toList))
           (genome_id ++ (".hmmsearch".toList) ++ (".bogus".toList))] := rfl
  refine ⟨rfl, rfl, rfl, ?_, ?_⟩
  · rw [heff]
    simp only [applyFsList, List.foldl_cons, List.foldl_nil, applyFs, if_neg hne]
    simp
  · rw [heff]
    simp only [applyFsList, List.foldl_cons, List.foldl_nil, applyFs, if_pos rfl]
    simp

/-- C7: for a resolved work item whose completion marker already exists at the
destination and with the force flag not set, the dispatcher's per-item closure
performs zero uploads and zero worker launches, emitting only an informational
skip note, and the remote store state is left unchanged. -/
theorem genome_work_skips_completed (catalog : List (Str × Str)) (debug : Bool)
    (remoteExists : Str → Bool) (genome_id species_id : Str)
    (hsid : lookupA catalog genome_id = some species_id)
    (hex : remoteExists (destpath genome_id species_id (lastoutput genome_id)) = true) :
    ∃ msg, genome_work catalog false debug remoteExists genome_id
        = Except.ok [Effect.note msg]
      ∧ ([Effect.note msg] : List Effect).countP isUpload = 0
      ∧ ([Effect.note msg] : List Effect).countP isRunSlave = 0
      ∧ ∀ s : Str → Bool, applyEffects s [Effect.note msg] = s := by
  refine ⟨("Destination ".toList) ++ destpath genome_id species_id (lastoutput genome_id)
      ++ (" already exists.  Specify --force to overwrite.".toList), ?_, rfl, rfl,
      fun s => rfl⟩
  unfold genome_work
  rw [hsid]
  dsimp only
  rw [if_pos ⟨hex, rfl⟩]

/-- C1: the worker uploads the hmmsearch report and the markers.fa file first —
in an arbitrary completion order — and uploads the markers.map completion
marker strictly after all of them: the upload trace ends with the map upload
and every earlier upload is one of the two non-final artifacts; moreover
identify_marker_genes' output-file list ends with the designated last output
name for the genome. -/
theorem completion_marker_uploaded_last (genome_id species_id : Str)
    (order : List Str)
    (hperm : order.Perm (identify_output_files genome_id).dropLast) :
    (identify_output_files genome_id).getLastD [] = lastoutput genome_id
    ∧ (build_marker_genes_slave_uploads genome_id species_id order).getLast?
        = some (lastoutput genome_id,
            destpath genome_id species_id (lastoutput genome_id))
    ∧ ∀ e ∈ (build_marker_genes_slave_uploads genome_id species_id order).dropLast,
        (e.1 = genome_id ++ (".hmmsearch".toList)
          ∨ e.1 = genome_id ++ (".markers.fa".toList))
        ∧ e.1 ≠ lastoutput genome_id := by
  refine ⟨rfl, ?_, ?_⟩
  · show ((order.map fun o => (o, destpath genome_id species_id o))
        ++ [((identify_output_files genome_id).getLastD [],
             destpath genome_id species_id
               ((identify_output_files genome_id).getLastD []))]).getLast? = _
    rw [List.getLast?_concat]
    rfl
  · intro e he
    rw [show (build_marker_genes_slave_uploads genome_id species_id order).dropLast
        = order.map (fun o => (o, destpath genome_id species_id o)) from
      List.dropLast_concat] at he
    obtain ⟨o, ho, rfl⟩ := List.mem_map.mp he
    have ho3 : o = genome_id ++ (".hmmsearch".toList)
        ∨ o = genome_id ++ (".markers.fa".toList) := by
      have hm : o ∈ [genome_id ++ (".hmmsearch".toList),
          genome_id ++ (".markers.fa".toList)] := hperm.subset ho
      simpa using hm
    refine ⟨ho3, ?_⟩
    show o ≠ lastoutput genome_id
    intro hcontra
    unfold lastoutput at hcontra
    rcases ho3 with h | h
    · rw [h] at hcontra
      exact absurd (List.append_cancel_left hcontra) (by decide)
    · rw [h] at hcontra
      exact absurd (List.append_cancel_left hcontra) (by decide)

/-- C6: the hit selector discards a parsed hit exactly when its e-value exceeds
the maximum e-value threshold or the minimum of its query and target coverage
is below the minimum coverage threshold (such a hit leaves the loop state
unchanged, so it is excluded even when its e-value passes), and every hit in
the returned set satisfies both thresholds. -/
theorem find_hits_threshold_filter (max_evalue min_cov : Rat) :
    (∀ hits r, (max_evalue < r.evalue ∨ min r.qcov r.tcov < min_cov) →
       hitStep max_evalue min_cov hits r = hits)
    ∧ ∀ records h, h ∈ find_hits max_evalue min_cov records →
        h.evalue ≤ max_evalue ∧ min_cov ≤ min h.qcov h.tcov := by
  constructor
  · intro hits r hbad
    unfold hitStep
    by_cases h1 : max_evalue < r.evalue
    · rw [if_pos h1]
    · rcases hbad with hb | hb
      · exact absurd hb h1
      · rw [if_neg h1, if_pos hb]
  · intro records h hmem
    exact foldl_hitStep_pass max_evalue min_cov records [] (by simp) h hmem

/-- C3: the hit selector keeps exactly one hit per target (targets in the
selector state are always distinct): a hit passing the thresholds whose target
is new is appended, a later passing hit for an already-seen target replaces
the stored one exactly when its e-value is strictly smaller (ties keep the
earlier hit), and consequently for two surviving hits on one target in input
order the result keeps the first when its e-value is smaller or equal and the
second exactly when the second's e-value is strictly smaller. -/
theorem find_hits_best_per_target (max_evalue min_cov : Rat) :
    (∀ hits r, ¬ max_evalue < r.evalue → ¬ min r.qcov r.tcov < min_cov →
       lookupA hits r.target = none →
       hitStep max_evalue min_cov hits r = hits ++ [(r.target, r)])
    ∧ (∀ hits r prev, ¬ max_evalue < r.evalue → ¬ min r.qcov r.tcov < min_cov →
       lookupA hits r.target = some prev →
       hitStep max_evalue min_cov hits r
         = if r.evalue < prev.evalue then updateA hits r.target r else hits)
    ∧ (∀ h1 h2 : Hmmhit, h2.target = h1.target →
       h1.evalue ≤ max_evalue → min_cov ≤ min h1.qcov h1.tcov →
       h2.evalue ≤ max_evalue → min_cov ≤ min h2.qcov h2.tcov →
       find_hits max_evalue min_cov [h1, h2]
         = [if h2.evalue < h1.evalue then h2 else h1])
    ∧ ∀ records : List Hmmhit,
        ((records.foldl (hitStep max_evalue min_cov) []).map Prod.fst).Nodup := by
  refine ⟨?_, ?_, ?_, ?_⟩
  · intro hits r hr1 hr2 hl
    unfold hitStep
    rw [if_neg hr1, if_neg hr2, hl]
  · intro hits r prev hr1 hr2 hl
    unfold hitStep
    rw [if_neg hr1, if_neg hr2, hl]
  · intro h1 h2 ht hp1 hc1 hp2 hc2
    unfold find_hits
    rw [List.foldl_cons, List.foldl_cons, List.foldl_nil]
    rw [show hitStep max_evalue min_cov [] h1 = [(h1.target, h1)] by
      unfold hitStep
      rw [if_neg (not_lt.mpr hp1), if_neg (not_lt.mpr hc1)]
      rfl]
    unfold hitStep
    rw [if_neg (not_lt.mpr hp2), if_neg (not_lt.mpr hc2)]
    rw [show lookupA [(h1.target, h1)] h2.target = some h1 by
      unfold lookupA
      rw [if_pos ht.symm]]
    dsimp only
    by_cases he : h2.evalue < h1.evalue
    · rw [if_pos he, if_pos he]
      show (updateA [(h1.target, h1)] h2.target h2).map Prod.snd = [h2]
      unfold updateA
      rw [if_pos ht.symm]
      rfl
    · rw [if_neg he, if_neg he]
      rfl
  · intro records
    exact foldl_hitStep_nodup max_evalue min_cov records [] (by simp)

/-- C5: for a well-formed slice token i:n with 0 ≤ i < n, over a catalog whose
ids all carry a parseable numeric suffix, a genomeId is included in the
resolved selection iff the integer derived from the id satisfies
id mod n = i; and a token whose two parsed integers violate 0 ≤ i < n is
rejected, reporting that token. -/
theorem slice_selection_characterized (genomes : List Str) (i n : Nat) (hin : i < n)
    (key : Str → Int) (hkey : ∀ gid ∈ genomes, keyOf gid = some (key gid)) :
    (∃ l, decode_genomes_arg (mkSliceToken i n) genomes = Except.ok l
       ∧ ∀ gid, gid ∈ l ↔ gid ∈ genomes ∧ key gid % (n : Int) = (i : Int))
    ∧ ∀ (tok si sn : Str) (i' n' : Int) (acc : List Str),
        (':' : Char) ∈ tok → splitChar ':' tok = [si, sn] →
        pyInt si = some i' → pyInt sn = some n' → ¬(0 ≤ i' ∧ i' < n') →
        procToken genomes acc tok = Except.error tok := by
  constructor
  · refine ⟨sortStr (sliceSel key (i : Int) (n : Int) [] genomes),
      decode_slice_ok hkey hin, ?_⟩
    intro gid
    rw [mem_sortStr, mem_sliceSel]
    simp
  · intro tok si sn i' n' acc hc hsplit hi hn hbad
    unfold procToken
    rw [if_neg (not_not_intro hc), hsplit]
    dsimp only
    rw [hi, hn]
    dsimp only
    rw [if_neg hbad]

/-- C4: for a catalog whose genome ids all carry a parseable numeric suffix
and any modulus n > 0, the genome sets resolved from the single-token
expressions i:n for i = 0..n-1 cover the catalog (each genome appears in the
slice selected by its key mod n), each resolved set is contained in the
catalog, and distinct residues resolve to disjoint sets. -/
theorem slice_partition (genomes : List Str) (n : Nat) (hn : 0 < n)
    (key : Str → Int) (hkey : ∀ gid ∈ genomes, keyOf gid = some (key gid)) :
    (∀ gid ∈ genomes, ∃ i : Nat, i < n ∧ ∃ l,
        decode_genomes_arg (mkSliceToken i n) genomes = Except.ok l ∧ gid ∈ l)
    ∧ (∀ i : Nat, i < n →
        ∀ l, decode_genomes_arg (mkSliceToken i n) genomes = Except.ok l →
        ∀ gid ∈ l, gid ∈ genomes)
    ∧ ∀ i j : Nat, i < n → j < n → i ≠ j →
        ∀ li lj, decode_genomes_arg (mkSliceToken i n) genomes = Except.ok li →
          decode_genomes_arg (mkSliceToken j n) genomes = Except.ok lj →
          ∀ gid, gid ∈ li → gid ∉ lj := by
  have hnz : ((n : Int) ≠ 0) := by exact_mod_cast hn.ne'
  have hnpos : (0 : Int) < (n : Int) := by exact_mod_cast hn
  refine ⟨?_, ?_, ?_⟩
  · intro gid hgid
    have hnonneg : 0 ≤ key gid % (n : Int) := Int.emod_nonneg (key gid) hnz
    have hlt : key gid % (n : Int) < (n : Int) := Int.emod_lt_of_pos (key gid) hnpos
    refine ⟨(key gid % (n : Int)).toNat, ?_, ?_⟩
    · have : ((key gid % (n : Int)).toNat : Int) < (n : Int) := by
        rwa [Int.toNat_of_nonneg hnonneg]
      exact_mod_cast this
    · have hin : (key gid % (n : Int)).toNat < n := by
        have : ((key gid % (n : Int)).toNat : Int) < (n : Int) := by
          rwa [Int.toNat_of_nonneg hnonneg]
        exact_mod_cast this
      refine ⟨sortStr (sliceSel key ((key gid % (n : Int)).toNat : Int) (n : Int)
          [] genomes), decode_slice_ok hkey hin, ?_⟩
      rw [mem_sortStr, mem_sliceSel, Int.toNat_of_nonneg hnonneg]
      exact Or.inr ⟨hgid, rfl⟩
  · intro i hi l hl gid hgid
    rw [decode_slice_ok hkey hi] at hl
    have hleq : l = sortStr (sliceSel key (i : Int) (n : Int) [] genomes) :=
      (Except.ok.injEq _ _ ▸ hl).symm
    rw [hleq, mem_sortStr, mem_sliceSel] at hgid
    rcases hgid with h | h
    · cases h
    · exact h.1
  · intro i j hi hj hij li lj hli hlj gid hgli hglj
    rw [decode_slice_ok hkey hi] at hli
    rw [decode_slice_ok hkey hj] at hlj
    have hlieq : li = sortStr (sliceSel key (i : Int) (n : Int) [] genomes) :=
      (Except.ok.injEq _ _ ▸ hli).symm
    have hljeq : lj = sortStr (sliceSel key (j : Int) (n : Int) [] genomes) :=
      (Except.ok.injEq _ _ ▸ hlj).symm
    rw [hlieq, mem_sortStr, mem_sliceSel] at hgli
    rw [hljeq, mem_sortStr, mem_sliceSel] at hglj
    rcases hgli with h | hgi
    · cases h
    rcases hglj with h | hgj
    · cases h
    have : (i : Int) = (j : Int) := hgi.2 ▸ hgj.2
    exact hij (by exact_mod_cast this)

/-- C2 counterexample: the literal token "FOO" is not a genome id of the
catalog ["GUT_GENOME000001"] and contains no ':', yet work-item resolution
succeeds and returns the unknown literal in the selection — resolution does
not fail on a literal token that is not a catalog genome id. -/
theorem unknown_literal_accepted :
    (("FOO".toList) ∉ [("GUT_GENOME000001".toList)])
    ∧ (':' : Char) ∉ ("FOO".toList)
    ∧ decode_genomes_arg ("FOO".toList) [("GUT_GENOME000001".toList)]
        = Except.ok [("FOO".toList)] :=
  ⟨by decide, by decide, rfl⟩

/-- C2 (amended): a token containing ':' that is not a well-formed i:n pair —
wrong number of parts, a non-integer part, or a range violation 0 ≤ i < n —
fails the whole resolution before any dispatch, reporting the failing token;
a literal token (no ':') is added to the selection with no catalog check, and
an unknown genome id fails only when its own work item is processed, via the
catalog-membership assertion in genome_work. -/
theorem invalid_selection_behavior (genomes acc : List Str) (tok : Str) :
    ((':' : Char) ∈ tok →
      (∀ parts, splitChar ':' tok = parts → parts.length ≠ 2 →
        procToken genomes acc tok = Except.error tok)
      ∧ (∀ si sn, splitChar ':' tok = [si, sn] →
          pyInt si = none ∨ pyInt sn = none →
          procToken genomes acc tok = Except.error tok)
      ∧ (∀ si sn (i' n' : Int), splitChar ':' tok = [si, sn] →
          pyInt si = some i' → pyInt sn = some n' → ¬(0 ≤ i' ∧ i' < n') →
          procToken genomes acc tok = Except.error tok))
    ∧ (∀ expr : Str, expr.map Char.toUpper ≠ ("ALL".toList) →
        tok ∈ splitChar ',' expr →
        (∀ a, procToken genomes a tok = Except.error tok) →
        ∃ e, decode_genomes_arg expr genomes = Except.error e)
    ∧ ((':' : Char) ∉ tok → procToken genomes acc tok = Except.ok (addSel acc tok))
    ∧ ∀ (catalog : List (Str × Str)) (force debug : Bool) (remote : Str → Bool)
        (gid : Str), lookupA catalog gid = none →
        genome_work catalog force debug remote gid
          = Except.error (("Genome ".toList) ++ gid
              ++ (" is not in the database.".toList)) := by
  refine ⟨fun hc => ⟨?_, ?_, ?_⟩, ?_, ?_, ?_⟩
  · intro parts hparts hlen
    unfold procToken
    rw [if_neg (not_not_intro hc), hparts]
    rcases parts with _ | ⟨x, _ | ⟨y, _ | ⟨z, rest⟩⟩⟩
    · rfl
    · rfl
    · exact absurd rfl hlen
    · rfl
  · intro si sn hparts hnone
    unfold procToken
    rw [if_neg (not_not_intro hc), hparts]
    dsimp only
    cases hsi : pyInt si with
    | none => rfl
    | some i' =>
      cases hsn : pyInt sn with
      | none => rfl
      | some n' =>
        rcases hnone with h | h
        · rw [hsi] at h
          cases h
        · rw [hsn] at h
          cases h
  · intro si sn i' n' hparts hi hn hbad
    unfold procToken
    rw [if_neg (not_not_intro hc), hparts]
    dsimp only
    rw [hi, hn]
    dsimp only
    rw [if_neg hbad]
  · intro expr hALL hmem hfail
    unfold decode_genomes_arg
    rw [if_neg hALL]
    obtain ⟨e, he⟩ := foldE_error_of_mem (procToken genomes) (splitChar ',' expr)
      tok hmem (fun b => ⟨tok, hfail b⟩) []
    rw [he]
    exact ⟨e, rfl⟩
  · intro hc
    unfold procToken
    rw [if_pos hc]
  · intro catalog force debug remote gid hgid
    unfold genome_work
    rw [hgid]

/-- C10: the slice-membership integer for a genome id is the decimal parse of
the id with every occurrence of "GUT_GENOME" deleted (`keyOf`); consequently,
for any selection expression containing a slice token, if some catalog id has
no parseable remainder then resolution raises an error for the entire run
rather than skipping that id. -/
theorem unparseable_id_fails_run (expr : Str) (genomes : List Str) (tok gid : Str)
    (hALL : expr.map Char.toUpper ≠ ("ALL".toList))
    (htok : tok ∈ splitChar ',' expr) (hcolon : (':' : Char) ∈ tok)
    (hgid : gid ∈ genomes) (hbad : keyOf gid = none) :
    ∃ e, decode_genomes_arg expr genomes = Except.error e := by
  have hproc : ∀ a, ∃ e, procToken genomes a tok = Except.error e := by
    intro a
    unfold procToken
    rw [if_neg (not_not_intro hcolon)]
    cases hsp : splitChar ':' tok with
    | nil => exact ⟨tok, rfl⟩
    | cons si rest1 =>
      cases rest1 with
      | nil => exact ⟨tok, rfl⟩
      | cons sn rest2 =>
        cases rest2 with
        | cons s3 rest3 => exact ⟨tok, rfl⟩
        | nil =>
          dsimp only
          cases hsi : pyInt si with
          | none => exact ⟨tok, rfl⟩
          | some i' =>
            cases hsn : pyInt sn with
            | none => exact ⟨tok, rfl⟩
            | some n' =>
              dsimp only
              by_cases hr : (0 : Int) ≤ i' ∧ i' < n'
              · rw [if_pos hr]
                exact foldE_error_of_mem (sliceStep tok i' n') genomes gid hgid
                  (fun b => ⟨tok, by unfold sliceStep; rw [hbad]⟩) a
              · exact ⟨tok, by rw [if_neg hr]⟩
  unfold decode_genomes_arg
  rw [if_neg hALL]
  obtain ⟨e, he⟩ := foldE_error_of_mem (procToken genomes) (splitChar ',' expr)
    tok htok hproc []
  rw [he]
  exact ⟨e, rfl⟩

/-! ## Witnesses -/

/-- Witness for C7: a one-genome catalog whose completion marker exists
remotely; the closure emits only the skip note. -/
theorem genome_work_skips_completed_witness :
    lookupA [(("GUT_GENOME000001".toList), ("100001".toList))]
        ("GUT_GENOME000001".toList) = some ("100001".toList)
    ∧ (fun _ : Str => true) (destpath ("GUT_GENOME000001".toList) ("100001".toList)
        (lastoutput ("GUT_GENOME000001".toList))) = true
    ∧ ∃ msg, genome_work [(("GUT_GENOME000001".toList), ("100001".toList))] false false
          (fun _ => true) ("GUT_GENOME000001".toList) = Except.ok [Effect.note msg]
        ∧ ([Effect.note msg] : List Effect).countP isUpload = 0
        ∧ ([Effect.note msg] : List Effect).countP isRunSlave = 0
        ∧ ∀ s : Str → Bool, applyEffects s [Effect.note msg] = s :=
  ⟨rfl, rfl, genome_work_skips_completed
    [(("GUT_GENOME000001".toList), ("100001".toList))] false (fun _ => true)
    ("GUT_GENOME000001".toList) ("100001".toList) rfl rfl⟩

/-- Witness for C1: a concrete genome and species with the two non-final
uploads completing in swapped order; the map upload still comes last. -/
theorem completion_marker_uploaded_last_witness :
    ([("GUT_GENOME000001".toList) ++ (".markers.fa".toList),
      ("GUT_GENOME000001".toList) ++ (".hmmsearch".toList)]).Perm
        ((identify_output_files ("GUT_GENOME000001".toList)).dropLast)
    ∧ ((identify_output_files ("GUT_GENOME000001".toList)).getLastD []
          = lastoutput ("GUT_GENOME000001".toList)
      ∧ (build_marker_genes_slave_uploads ("GUT_GENOME000001".toList)
            ("100001".toList)
            [("GUT_GENOME000001".toList) ++ (".markers.fa".toList),
             ("GUT_GENOME000001".toList) ++ (".hmmsearch".toList)]).getLast?
          = some (lastoutput ("GUT_GENOME000001".toList),
              destpath ("GUT_GENOME000001".toList) ("100001".toList)
                (lastoutput ("GUT_GENOME000001".toList)))
      ∧ ∀ e ∈ (build_marker_genes_slave_uploads ("GUT_GENOME000001".toList)
            ("100001".toList)
            [("GUT_GENOME000001".toList) ++ (".markers.fa".toList),
             ("GUT_GENOME000001".toList) ++ (".hmmsearch".toList)]).dropLast,
          (e.1 = ("GUT_GENOME000001".toList) ++ (".hmmsearch".toList)
            ∨ e.1 = ("GUT_GENOME000001".toList) ++ (".markers.fa".toList))
          ∧ e.1 ≠ lastoutput ("GUT_GENOME000001".toList)) :=
  ⟨List.Perm.swap _ _ _,
   completion_marker_uploaded_last ("GUT_GENOME000001".toList) ("100001".toList)
     [("GUT_GENOME000001".toList) ++ (".markers.fa".toList),
      ("GUT_GENOME000001".toList) ++ (".hmmsearch".toList)]
     (List.Perm.swap _ _ _)⟩

/-- Witness for C6: a hit whose e-value passes but whose coverage fails is
dropped by the loop step, per the first conjunct of the claim theorem. -/
theorem find_hits_threshold_filter_witness :
    ((1 : Rat) < (1 : Rat)/2 ∨ min ((1 : Rat)/10) 1 < (3 : Rat)/10)
    ∧ hitStep 1 ((3 : Rat)/10) []
        ⟨("g1".toList), ("t1".toList), (1 : Rat)/2, (1 : Rat)/10, 1⟩ = [] :=
  ⟨Or.inr (by norm_num),
   (find_hits_threshold_filter 1 ((3 : Rat)/10)).1 []
     ⟨("g1".toList), ("t1".toList), (1 : Rat)/2, (1 : Rat)/10, 1⟩
     (Or.inr (by norm_num))⟩

/-- Witness for C3: two hits on one target with e-values 1e-10 then 1e-5 keep
the first, per the third conjunct of the claim theorem evaluated here. -/
theorem find_hits_best_per_target_witness :
    (⟨("g2".toList), ("t1".toList), (1 : Rat)/10^5, 1, 1⟩ : Hmmhit).target
        = (⟨("g1".toList), ("t1".toList), (1 : Rat)/10^10, 1, 1⟩ : Hmmhit).target
    ∧ find_hits 1 0
        [⟨("g1".toList), ("t1".toList), (1 : Rat)/10^10, 1, 1⟩,
         ⟨("g2".toList), ("t1".toList), (1 : Rat)/10^5, 1, 1⟩]
      = [if ((1 : Rat)/10^5 < (1 : Rat)/10^10) then
           ⟨("g2".toList), ("t1".toList), (1 : Rat)/10^5, 1, 1⟩
         else ⟨("g1".toList), ("t1".toList), (1 : Rat)/10^10, 1, 1⟩] :=
  ⟨rfl,
   (find_hits_best_per_target 1 0).2.2.1
     ⟨("g1".toList), ("t1".toList), (1 : Rat)/10^10, 1, 1⟩
     ⟨("g2".toList), ("t1".toList), (1 : Rat)/10^5, 1, 1⟩
     rfl (by norm_num) (by norm_num) (by norm_num) (by norm_num)⟩

/-- Witness for C5: catalog of two genomes, token 1:2; the resolved set is
characterized by key mod 2 = 1. -/
theorem slice_selection_characterized_witness :
    (1 < 2
    ∧ ∀ gid ∈ [("GUT_GENOME000001".toList), ("GUT_GENOME000002".toList)],
        keyOf gid = some (if gid = ("GUT_GENOME000001".toList) then 1 else 2))
    ∧ ((∃ l, decode_genomes_arg (mkSliceToken 1 2)
          [("GUT_GENOME000001".toList), ("GUT_GENOME000002".toList)] = Except.ok l
        ∧ ∀ gid, gid ∈ l ↔
            gid ∈ [("GUT_GENOME000001".toList), ("GUT_GENOME000002".toList)]
            ∧ (if gid = ("GUT_GENOME000001".toList) then (1 : Int) else 2) % (2 : Int)
                = (1 : Int))
      ∧ ∀ (tok si sn : Str) (i' n' : Int) (acc : List Str),
          (':' : Char) ∈ tok → splitChar ':' tok = [si, sn] →
          pyInt si = some i' → pyInt sn = some n' → ¬(0 ≤ i' ∧ i' < n') →
          procToken [("GUT_GENOME000001".toList), ("GUT_GENOME000002".toList)]
            acc tok = Except.error tok) :=
  ⟨⟨by norm_num, by decide⟩,
   slice_selection_characterized
     [("GUT_GENOME000001".toList), ("GUT_GENOME000002".toList)] 1 2 (by norm_num)
     (fun gid => if gid = ("GUT_GENOME000001".toList) then 1 else 2) (by decide)⟩

/-- Witness for C4: the two slices 0:2 and 1:2 of a two-genome catalog cover
it, stay inside it, and are disjoint. -/
theorem slice_partition_witness :
    (0 < 2
    ∧ ∀ gid ∈ [("GUT_GENOME000001".toList), ("GUT_GENOME000002".toList)],
        keyOf gid = some (if gid = ("GUT_GENOME000001".toList) then 1 else 2))
    ∧ ((∀ gid ∈ [("GUT_GENOME000001".toList), ("GUT_GENOME000002".toList)],
          ∃ i : Nat, i < 2 ∧ ∃ l,
            decode_genomes_arg (mkSliceToken i 2)
              [("GUT_GENOME000001".toList), ("GUT_GENOME000002".toList)]
              = Except.ok l ∧ gid ∈ l)
      ∧ (∀ i : Nat, i < 2 →
          ∀ l, decode_genomes_arg (mkSliceToken i 2)
              [("GUT_GENOME000001".toList), ("GUT_GENOME000002".toList)]
              = Except.ok l →
          ∀ gid ∈ l, gid ∈ [("GUT_GENOME000001".toList), ("GUT_GENOME000002".toList)])
      ∧ ∀ i j : Nat, i < 2 → j < 2 → i ≠ j →
          ∀ li lj, decode_genomes_arg (mkSliceToken i 2)
              [("GUT_GENOME000001".toList), ("GUT_GENOME000002".toList)]
              = Except.ok li →
            decode_genomes_arg (mkSliceToken j 2)
              [("GUT_GENOME000001".toList), ("GUT_GENOME000002".toList)]
              = Except.ok lj →
          ∀ gid, gid ∈ li → gid ∉ lj) :=
  ⟨⟨by norm_num, by decide⟩,
   slice_partition [("GUT_GENOME000001".toList), ("GUT_GENOME000002".toList)] 2
     (by norm_num)
     (fun gid => if gid = ("GUT_GENOME000001".toList) then 1 else 2) (by decide)⟩

/-- Witness for the amended C2: the malformed token 1:x fails resolution with
that token reported, and an unknown genome id makes genome_work fail its
catalog assertion. -/
theorem invalid_selection_behavior_witness :
    ((':' : Char) ∈ ("1:x".toList)
    ∧ splitChar ':' ("1:x".toList) = [("1".toList), ("x".toList)]
    ∧ pyInt ("x".toList) = none)
    ∧ procToken [] [] ("1:x".toList) = Except.error ("1:x".toList)
    ∧ genome_work [] false false (fun _ => false) ("GUT_GENOME999999".toList)
        = Except.error (("Genome ".toList) ++ ("GUT_GENOME999999".toList)
            ++ (" is not in the database.".toList)) :=
  ⟨⟨by decide, by decide, by decide⟩,
   ((invalid_selection_behavior [] [] ("1:x".toList)).1 (by decide)).2.1
     ("1".toList) ("x".toList) (by decide) (Or.inr (by decide)),
   (invalid_selection_behavior [] [] ("1:x".toList)).2.2.2 [] false false
     (fun _ => false) ("GUT_GENOME999999".toList) rfl⟩

/-- Witness for C10: the expression 0:2 over a catalog containing the
unparseable id BAD makes the whole resolution fail. -/
theorem unparseable_id_fails_run_witness :
    (("0:2".toList).map Char.toUpper ≠ ("ALL".toList)
    ∧ ("0:2".toList) ∈ splitChar ',' ("0:2".toList)
    ∧ (':' : Char) ∈ ("0:2".toList)
    ∧ ("BAD".toList) ∈ [("BAD".toList)]
    ∧ keyOf ("BAD".toList) = none)
    ∧ ∃ e, decode_genomes_arg ("0:2".toList) [("BAD".toList)] = Except.error e :=
  ⟨⟨by decide, by decide, by decide, by decide, by decide⟩,
   unparseable_id_fails_run ("0:2".toList) [("BAD".toList)] ("0:2".toList)
     ("BAD".toList) (by decide) (by decide) (by decide) (by decide) (by decide)⟩

end Iggtools
